import Mathlib

/-!
Shallow embedding of the rugby video pipeline and proofs about its
specification.  The embedded source files are `core/pipeline_runner.py`,
`core/pipeline_models.py`, `ingest/video_finder.py` and
`indexing/index_manager.py`.

Python strings are modelled as Lean `String`.  Paths are ASCII, so the ASCII
`Char.toLower` models Python's `str.lower`.  Fallible Python code is embedded
with `Except`/`Option` results, external processes and services (ffmpeg,
whisper, the OpenAI client, the PostgreSQL store) are oracles packaged in a
`World` structure, and every definition is executable so that witnesses can
evaluate the pipeline on concrete inputs.
-/

namespace Rugby

/-- Model of Python `str.lower` restricted to ASCII paths. -/
def lowerS (s : String) : String := ⟨s.data.map Char.toLower⟩

/-- Model of Python `str.lstrip(".")`: drop every leading dot. -/
def lstripDots (s : String) : String := ⟨s.data.dropWhile (fun c => c == '.')⟩

/-- Model of Python `str.endswith(t)`. -/
def endswith (s t : String) : Bool := List.isSuffixOf t.data s.data

/-- Model of Python `str.strip()`: drop whitespace on both ends. -/
def stripS (s : String) : String :=
  ⟨((s.data.dropWhile Char.isWhitespace).reverse.dropWhile Char.isWhitespace).reverse⟩

/-- Core of POSIX `os.path.splitext`, computed over the reversed character
list.  The extension starts at the last dot of the path provided that dot
lies inside the final path component and that component does not consist of
leading dots only (CPython's `genericpath._splitext`). -/
def splitextList (p : List Char) : List Char × List Char :=
  let r := p.reverse
  let extRev := r.takeWhile (fun c => !(c == '.') && !(c == '/'))
  match r.dropWhile (fun c => !(c == '.') && !(c == '/')) with
  | '.' :: pre =>
      if (pre.takeWhile (fun c => !(c == '/'))).any (fun c => !(c == '.')) then
        (pre.reverse, '.' :: extRev.reverse)
      else (p, [])
  | _ => (p, [])

/-- Stem component of `os.path.splitext`. -/
def splitextStem (s : String) : String := ⟨(splitextList s.data).1⟩

/-- Extension component of `os.path.splitext` (leading dot included). -/
def splitextExt (s : String) : String := ⟨(splitextList s.data).2⟩

/-- Model of `s.rsplit(".", 1)[0]`: everything before the last dot, or the
whole string when it has no dot. -/
def rsplitDotStem (s : String) : String :=
  let r := s.data.reverse
  let suf := r.takeWhile (fun c => !(c == '.'))
  if suf.length = r.length then s else ⟨((r.drop (suf.length + 1))).reverse⟩

/-- Model of POSIX `os.path.basename`: the part after the last slash. -/
def basenameS (s : String) : String :=
  ⟨(s.data.reverse.takeWhile (fun c => !(c == '/'))).reverse⟩

/-- Model of POSIX `os.path.dirname`: the part before the last slash, with
trailing slashes stripped unless the result is all slashes. -/
def dirnameS (s : String) : String :=
  let r := s.data.reverse
  let base := r.takeWhile (fun c => !(c == '/'))
  let head := (r.drop base.length).reverse
  if head.isEmpty then "" else
  if head.all (fun c => c == '/') then ⟨head⟩ else
  ⟨(head.reverse.dropWhile (fun c => c == '/')).reverse⟩

/-- Model of POSIX `os.path.join(a, b)` for two components. -/
def joinPath (a b : String) : String :=
  if b.data.head? = some '/' then b
  else if a.data = [] ∨ a.data.getLast? = some '/' then ⟨a.data ++ b.data⟩
  else ⟨a.data ++ '/' :: b.data⟩

/-- Specification-side reading of a path's extension: the characters after
the last dot of the path (`none` when the path has no dot).  Used to state
what the scanner's suffix test accepts. -/
def lastDotExt (s : String) : Option String :=
  let r := s.data.reverse
  match r.dropWhile (fun c => !(c == '.')) with
  | [] => none
  | _ :: _ => some ⟨(r.takeWhile (fun c => !(c == '.'))).reverse⟩

/-- Lexicographic comparison of character lists by code point, the order
`sorted` uses on Python strings. -/
def lexLeL : List Char → List Char → Bool
  | [], _ => true
  | _ :: _, [] => false
  | c :: cs, d :: ds =>
      if c.toNat < d.toNat then true
      else if d.toNat < c.toNat then false
      else lexLeL cs ds

/-- Lexicographic order on strings as a decidable relation. -/
def pyStrLe (a b : String) : Prop := lexLeL a.data b.data = true

instance : DecidableRel pyStrLe := fun a b => by
  unfold pyStrLe; infer_instance

theorem lexLeL_total (a b : List Char) : lexLeL a b = true ∨ lexLeL b a = true := by
  induction a generalizing b with
  | nil => left; rfl
  | cons c cs ih =>
      cases b with
      | nil => right; rfl
      | cons d ds =>
          by_cases h1 : c.toNat < d.toNat
          · left; simp [lexLeL, h1]
          · by_cases h2 : d.toNat < c.toNat
            · right; simp [lexLeL, h2, h1]
            · rcases ih ds with h | h
              · left; simp [lexLeL, h1, h2, h]
              · right; simp [lexLeL, h1, h2, h]

theorem lexLeL_cons_le {x y : Char} {xs ys : List Char}
    (h : lexLeL (x :: xs) (y :: ys) = true) : x.toNat ≤ y.toNat := by
  by_cases h1 : x.toNat < y.toNat
  · omega
  · by_cases h2 : y.toNat < x.toNat
    · simp [lexLeL, h1, h2] at h
    · omega

theorem lexLeL_cons_eq {x y : Char} (hxy : x.toNat = y.toNat) (xs ys : List Char) :
    lexLeL (x :: xs) (y :: ys) = lexLeL xs ys := by
  simp only [lexLeL]
  rw [hxy]
  simp

theorem lexLeL_trans {a b c : List Char} (h1 : lexLeL a b = true)
    (h2 : lexLeL b c = true) : lexLeL a c = true := by
  induction a generalizing b c with
  | nil => rfl
  | cons x xs ih =>
      cases b with
      | nil => simp [lexLeL] at h1
      | cons y ys =>
          cases c with
          | nil => simp [lexLeL] at h2
          | cons z zs =>
              have hxy := lexLeL_cons_le h1
              have hyz := lexLeL_cons_le h2
              by_cases hxz : x.toNat < z.toNat
              · simp [lexLeL, hxz]
              · have hxyeq : x.toNat = y.toNat := by omega
                have hyzeq : y.toNat = z.toNat := by omega
                rw [lexLeL_cons_eq hxyeq] at h1
                rw [lexLeL_cons_eq hyzeq] at h2
                have hzx : ¬ z.toNat < x.toNat := by omega
                simp [lexLeL, hxz, hzx, ih h1 h2]

instance : IsTotal String pyStrLe := ⟨fun a b => lexLeL_total a.data b.data⟩

instance : IsTrans String pyStrLe := ⟨fun _ _ _ => lexLeL_trans⟩

/-- Model of Python's `sorted` on lists of strings. -/
def sortedPy (l : List String) : List String := List.insertionSort pyStrLe l

/-- Python-level errors the embedded code can raise. -/
inductive PyErr
  | valueError (msg : String)
  | attributeError (attr : String)
  | calledProcessError
  | fileNotFoundError
  | systemExit (code : Nat)
  deriving DecidableEq

deriving instance DecidableEq for Except

/-- Model of the untyped configuration values the YAML loader hands to the
model constructors (strings, ints, booleans, lists, dictionaries, None). -/
inductive CVal
  | vstr (s : String)
  | vint (n : Int)
  | vbool (b : Bool)
  | vlist (l : List CVal)
  | vdict (entries : List (String × CVal))
  | vnone

/-- Key lookup in a dictionary value (keys are unique in the YAML input). -/
def CVal.lookupKey : List (String × CVal) → String → Option CVal
  | [], _ => none
  | (k, v) :: rest, key => if k = key then some v else CVal.lookupKey rest key

/-- Model of `d.get(key)` returning `None` for a missing key. -/
def CVal.get (d : CVal) (key : String) : Option CVal :=
  match d with
  | .vdict es => CVal.lookupKey es key
  | _ => none

/-- Model of `d.get(key, default)` at string shape; the Python code performs
no validation, and its callers supply values of the expected shapes. -/
def CVal.getStr (d : CVal) (key : String) (dflt : String) : String :=
  match d.get key with
  | some (.vstr s) => s
  | _ => dflt

/-- Model of `d.get(key, default)` at integer shape. -/
def CVal.getInt (d : CVal) (key : String) (dflt : Int) : Int :=
  match d.get key with
  | some (.vint n) => n
  | _ => dflt

/-- Model of `d.get(key, [])` at list shape. -/
def CVal.getList (d : CVal) (key : String) : List CVal :=
  match d.get key with
  | some (.vlist l) => l
  | _ => []

/-- Model of `d.get(key, {})` at dictionary shape. -/
def CVal.getDict (d : CVal) (key : String) : CVal :=
  match d.get key with
  | some (.vdict es) => .vdict es
  | _ => .vdict []

/-- Embedding of `PromptModel` from `core/pipeline_models.py`. -/
structure PromptModel where
  system : String
  user : String
  instructions : String
  examples : List CVal

/-- Embedding of `PromptModel.__init__`. -/
def mkPromptModel (prompt_config : CVal) : PromptModel :=
  { system := stripS (prompt_config.getStr "system" "")
  , user := stripS (prompt_config.getStr "user" "")
  , instructions := stripS (prompt_config.getStr "instructions" "")
  , examples := prompt_config.getList "examples" }

/-- Embedding of the `VideoSourceType` enum. -/
inductive VideoSourceType
  | linux_desktop
  | windows_desktop
  | network_host
  deriving DecidableEq

/-- Model of the `VideoSourceType(value)` enum call, which raises `ValueError`
for an unknown value. -/
def VideoSourceType.ofString : String → Except PyErr VideoSourceType
  | "linux_desktop" => .ok .linux_desktop
  | "windows_desktop" => .ok .windows_desktop
  | "network_host" => .ok .network_host
  | s => .error (.valueError s)

/-- Embedding of `VideoSource`. -/
structure VideoSource where
  source_type : VideoSourceType
  path : String
  watch_patterns : List String
  deriving DecidableEq

/-- Embedding of `VideoSource.__init__`: defaults, plus the invariant that a
(case-insensitive) `mp4` entry is appended to `watch_patterns` when absent. -/
def mkVideoSource (source_config : CVal) : Except PyErr VideoSource := do
  let st ← VideoSourceType.ofString (source_config.getStr "type" "windows_desktop")
  let pats := (source_config.getList "watch_patterns").filterMap
    (fun v => match v with | .vstr s => some s | _ => none)
  let pats := if pats.any (fun p => lowerS p == "mp4") then pats else pats ++ ["mp4"]
  .ok { source_type := st, path := source_config.getStr "path" "TODO", watch_patterns := pats }

/-- Embedding of `VideoSourcesConfiguration`. -/
structure VideoSourcesConfiguration where
  sources : List VideoSource
  deriving DecidableEq

/-- Embedding of `VideoSourcesConfiguration.__init__`. -/
def mkVideoSourcesConfiguration (sources : List CVal) : Except PyErr VideoSourcesConfiguration := do
  let ss ← sources.mapM mkVideoSource
  .ok ⟨ss⟩

/-- Embedding of `FFmpegConfig`. -/
structure FFmpegConfig where
  video_codec : String
  crf : Int
  preset : String
  audio_codec : String
  audio_bitrate : String
  deriving DecidableEq

/-- Embedding of `FFmpegConfig.__init__` with its defaults. -/
def mkFFmpegConfig (ffmpeg_config : CVal) : FFmpegConfig :=
  { video_codec := ffmpeg_config.getStr "video_codec" "libx264"
  , crf := ffmpeg_config.getInt "crf" 23
  , preset := ffmpeg_config.getStr "preset" "fast"
  , audio_codec := ffmpeg_config.getStr "audio_codec" "aac"
  , audio_bitrate := ffmpeg_config.getStr "audio_bitrate" "128k" }

/-- Embedding of `ConversionConfig`. -/
structure ConversionConfig where
  ffmpeg : FFmpegConfig
  parallel_workers : Int
  deriving DecidableEq

/-- Embedding of `ConversionConfig.__init__`. -/
def mkConversionConfig (conversion_config : CVal) : ConversionConfig :=
  { ffmpeg := mkFFmpegConfig (conversion_config.getDict "ffmpeg")
  , parallel_workers := conversion_config.getInt "parallel_workers" 1 }

/-- Embedding of `IndexingConfig`. -/
structure IndexingConfig where
  ai_provider : String
  model : String
  batch_size : Int
  prompt_model : PromptModel

/-- Embedding of `IndexingConfig.__init__` with its defaults. -/
def mkIndexingConfig (indexing_config : CVal) : IndexingConfig :=
  { ai_provider := indexing_config.getStr "ai_provider" "openai"
  , model := indexing_config.getStr "model" "gpt-4o-mini"
  , batch_size := indexing_config.getInt "batch_size" 10
  , prompt_model := mkPromptModel (indexing_config.getDict "prompt_model") }

/-- Modelled from the spec: `TranscriptionConfig` is {model_size, language,
device: string; output_dir: optional path; preserve_tree: bool}.  No such
class exists in `core/pipeline_models.py`, although
`PipelineRunner.transcribe_to_srt` reads `config.transcription_config` and
the repository's model tests import the class. -/
structure TranscriptionConfig where
  model_size : String
  language : String
  device : String
  output_dir : Option String
  preserve_tree : Bool
  deriving DecidableEq

/-- Embedding of `VideoProcessingConfig`.  The field `transcription_config`
models the Python attribute of that name read by
`PipelineRunner.transcribe_to_srt`; it is `none` when never assigned, and
reading it then raises `AttributeError`. -/
structure VideoProcessingConfig where
  video_sources : VideoSourcesConfiguration
  conversion_config : ConversionConfig
  indexing_config : IndexingConfig
  transcription_config : Option TranscriptionConfig

/-- Embedding of `VideoProcessingConfig.__init__`: it reads the keys
`sources`, `conversion` and `indexing` of the processing dictionary and
assigns exactly the attributes `video_sources`, `conversion_config` and
`indexing_config`; no transcription component is constructed. -/
def mkVideoProcessingConfig (processing_config : CVal) : Except PyErr VideoProcessingConfig := do
  let vs ← mkVideoSourcesConfiguration (processing_config.getList "sources")
  .ok { video_sources := vs
      , conversion_config := mkConversionConfig (processing_config.getDict "conversion")
      , indexing_config := mkIndexingConfig (processing_config.getDict "indexing")
      , transcription_config := none }

/-- Persisted `videos` row: {id: auto int, path: unique string, summary,
embedding}.  Embedding vectors are modelled over `Int` (their numeric
contents never influence control flow). -/
structure VideoRecord where
  id : Nat
  path : String
  summary : String
  embedding : List Int
  deriving DecidableEq

/-- The `videos` table with its id sequence. -/
structure Store where
  rows : List VideoRecord
  nextId : Nat
  deriving DecidableEq

/-- The `DO UPDATE` arm of the upsert: overwrite summary and embedding of
the row whose path conflicts, leaving id and path untouched. -/
def updateRecord (p summary : String) (emb : List Int) (r : VideoRecord) : VideoRecord :=
  if r.path = p then { r with summary := summary, embedding := emb } else r

/-- Embedding of the SQL statement in `vectorize_and_store_summary`:
`INSERT ... ON CONFLICT (path) DO UPDATE SET summary = ..., embedding = ...`. -/
def Store.upsert (s : Store) (p summary : String) (emb : List Int) : Store :=
  if s.rows.any (fun r => r.path == p) then
    { s with rows := s.rows.map (updateRecord p summary emb) }
  else
    { rows := s.rows ++ [{ id := s.nextId, path := p, summary := summary, embedding := emb }]
    , nextId := s.nextId + 1 }

/-- Uniqueness invariant of the `videos` table: `path` carries a unique
index, so distinct rows have distinct paths. -/
def Store.wf (s : Store) : Prop := s.rows.Pairwise (fun r1 r2 => r1.path ≠ r2.path)

/-- The (summary, embedding) pairs of the rows stored under a path. -/
def Store.recordsFor (s : Store) (p : String) : List (String × List Int) :=
  (s.rows.filter (fun r => r.path == p)).map (fun r => (r.summary, r.embedding))

/-- Oracles for the external world: the filesystem walk, the database, the
ffmpeg/whisper subprocesses, the OpenAI summarizer, the embedding model and
the thread pool's completion order.  `walk root` is the recursive file
listing `os.walk` produces beneath `root` (root-joined paths), or the OS
error a scan raises. -/
structure World where
  walk : String → Except String (List String)
  dbUp : Bool
  store : Store
  encOk : String → Bool
  wavOk : String → Bool
  whisperOk : String → Bool
  srtText : String → String
  llmContent : String → Option String
  embedVec : String → List Int
  convSchedule : List String → List String
  interruptBeforeConvert : Option Nat
  interruptBeforeTranscribe : Option Nat
  interruptBeforeIndex : Option Nat

/-- `SUPPORTED_VIDEO_FORMATS` from `ingest/video_finder.py`. -/
def SUPPORTED_VIDEO_FORMATS : List String := ["mpg", "mp4", "avi", "mov", "mkv"]

/-- Embedding of `find_video_files` in recursive mode.  `files` is the walk
listing beneath the directory.  The code tests the suffix on the bare file
name and appends `os.path.join(root, file)`; testing the suffix on the
joined path is equivalent, because the patterns `.fmt` contain no slash and
the file name is the final slash-free segment of the joined path. -/
def find_video_files (files : List String) (watch_patterns : List String) : List String :=
  let normalized_patterns := watch_patterns.map (fun p => lstripDots (lowerS p))
  let extensions := normalized_patterns.filter (fun p => SUPPORTED_VIDEO_FORMATS.contains p)
  sortedPy (files.filter (fun f => extensions.any (fun fmt => endswith (lowerS f) ("." ++ fmt))))

/-- Result of the dedup query `video_file_indexed`: the boolean it returns
and whether it logged the store-unavailable warning. -/
structure IndexedCheck where
  result : Bool
  warned : Bool
  deriving DecidableEq

/-- Embedding of `video_file_indexed` from `indexing/index_manager.py`: when
the connection attempt raises, it logs a warning and returns `False`; with a
connection it runs `SELECT EXISTS(SELECT 1 FROM videos WHERE path = %s)`. -/
def video_file_indexed (w : World) (file_path : String) : IndexedCheck :=
  if w.dbUp then { result := w.store.rows.any (fun r => r.path == file_path), warned := false }
  else { result := false, warned := true }

/-- Embedding of `summarize_srt_file`: rejects any provider except
`openai`, builds the prompt from the configured instructions and the
transcript, and fails on a missing or whitespace-only completion.  (The
quotation marks of the provider error message are elided.) -/
def summarize_srt_file (w : World) (configuration : IndexingConfig) (srt_file : String) :
    Except PyErr String :=
  if configuration.ai_provider ≠ "openai" then
    .error (.valueError ("Unsupported AI provider: " ++ configuration.ai_provider ++
      ". Only openai is supported."))
  else
    let transcript := w.srtText srt_file
    let prompt := "\n    " ++ configuration.prompt_model.instructions ++
      "\n\n    Here is the transcript:\n\n    " ++ transcript ++ "\n    "
    match w.llmContent prompt with
    | none => .error (.valueError "No response from OpenAI API")
    | some content =>
        let summary := stripS content
        if summary = "" then .error (.valueError "Empty summary returned from OpenAI API")
        else .ok summary

/-- Embedding of `vectorize_and_store_summary`: encode the summary, then
upsert keyed on the video path; when the connection attempt raises, log a
warning and skip the store entirely. -/
def vectorize_and_store_summary (w : World) (store : Store) (summary : String)
    (video_file_path : String) : Store :=
  if w.dbUp then store.upsert video_file_path summary (w.embedVec summary)
  else store

/-- Trace of one `pause_with_abort` call: seconds actually slept, whether the
run was aborted by `SystemExit(130)`, and how many countdown lines were
logged. -/
structure PauseTrace where
  slept : Nat
  aborted : Bool
  countdownLogs : Nat
  deriving DecidableEq

/-- Embedding of `pause_with_abort`.  The source body reassigns
`seconds = max(0, 0)` before the zero check, so the countdown loop below it
is dead code; it is embedded anyway, with `interruptAfter` the oracle for a
KeyboardInterrupt delivered during the k-th one-second sleep. -/
def pause_with_abort (stage : String) (seconds : Int) (interruptAfter : Option Nat) : PauseTrace :=
  let secondsReassigned : Int := max 0 0
  if secondsReassigned = 0 then { slept := 0, aborted := false, countdownLogs := 0 }
  else
    let n := secondsReassigned.toNat
    match interruptAfter with
    | some k =>
        if k < n then { slept := k, aborted := true, countdownLogs := k + 1 }
        else { slept := n, aborted := false, countdownLogs := n }
    | none => { slept := n, aborted := false, countdownLogs := n }

/-- Result of `convert_mp4_to_wav`: the returned path or raised error, and
the inputs for which the wav-extraction ffmpeg subprocess ran. -/
structure WavResult where
  result : Except PyErr String
  ffmpegCalls : List String
  deriving DecidableEq

/-- Drop the last `n` characters of a string (`s[:-n]`). -/
def strDropRight (s : String) (n : Nat) : String := ⟨s.data.take (s.data.length - n)⟩

/-- Truthiness of an optional string (`if output_dir:`). -/
def truthyOpt : Option String → Bool
  | some d => d ≠ ""
  | none => false

/-- Embedding of `convert_mp4_to_wav`: reject non-`.mp4` input with
`ValueError` before any subprocess; otherwise derive the wav path (under
`output_dir` when one is given, else alongside the video) and run ffmpeg,
whose failure raises `CalledProcessError`. -/
def convert_mp4_to_wav (w : World) (video_file : String) (output_dir : Option String) : WavResult :=
  if !(endswith (lowerS video_file) ".mp4") then
    { result := .error (.valueError "Input file must be an MP4 video file."), ffmpegCalls := [] }
  else
    let base_name := splitextStem (basenameS video_file) ++ ".wav"
    let audio_file :=
      match output_dir with
      | some d => if d ≠ "" then joinPath d base_name else strDropRight video_file 3 ++ "wav"
      | none => strDropRight video_file 3 ++ "wav"
    if w.wavOk video_file then { result := .ok audio_file, ffmpegCalls := [video_file] }
    else { result := .error .calledProcessError, ffmpegCalls := [video_file] }

/-- One encoder invocation of the conversion stage. -/
structure EncCall where
  input : String
  output : String
  deriving DecidableEq

/-- Embedding of the per-file closure `process_one` in
`PipelineRunner.convert_videos`: canonical `mp4` files pass through with no
subprocess; other files are encoded to `<stem>_converted.mp4`
(`vpath.rsplit(".", 1)[0]`), and an encoder failure drops the file. -/
def process_one (w : World) (vpath : String) : Option String × List EncCall :=
  let ext := lstripDots (lowerS (splitextExt vpath))
  if ext = "mp4" then (some vpath, [])
  else
    let output_file := rsplitDotStem vpath ++ "_converted.mp4"
    if w.encOk vpath then (some output_file, [⟨vpath, output_file⟩])
    else (none, [⟨vpath, output_file⟩])

/-- Outputs and encoder invocations of the conversion stage. -/
structure ConvResult where
  outputs : List String
  calls : List EncCall
  deriving DecidableEq

/-- Order in which `convert_videos` processes the batch.  With one worker or
at most one file the loop runs sequentially in input order.  Otherwise the
results are collected in the completion order of the thread pool
(`as_completed` over the submitted futures): every submitted future
completes exactly once, so a completion order is by definition a
permutation of the submitted batch.  The oracle `w.convSchedule` picks that
permutation; a non-permutation oracle value corresponds to no execution of
the pool and is replaced by the input order. -/
def convOrder (cc : ConversionConfig) (w : World) (video_files : List String) : List String :=
  let workers := max 1 cc.parallel_workers
  if workers = 1 ∨ video_files.length ≤ 1 then video_files
  else
    let sched := w.convSchedule video_files
    if sched.isPerm video_files then sched else video_files

/-- Embedding of `PipelineRunner.convert_videos`: each file of the batch is
handled by `process_one` in the order of `convOrder`; successful outputs are
collected and the encoder invocations recorded. -/
def convert_videos (cc : ConversionConfig) (w : World) (video_files : List String) : ConvResult :=
  let order := convOrder cc w video_files
  { outputs := order.filterMap (fun vf => (process_one w vf).1)
  , calls := (order.map (fun vf => (process_one w vf).2)).flatten }

/-- Embedding of `find_source_base` in `transcribe_to_srt`: the first
configured source whose path is a string-with prefix of the video path. -/
def find_source_base (sources : List VideoSource) (path : String) : Option String :=
  match sources.find? (fun src => List.isPrefixOf src.path.data path.data) with
  | some src => some src.path
  | none => none

/-- Length of the common leading run of two component lists. -/
def commonLen : List String → List String → Nat
  | a :: as, b :: bs => if a = b then commonLen as bs + 1 else 0
  | _, _ => 0

/-- Model of POSIX `os.path.relpath` for already-normalized absolute
paths: count the common leading components, then climb with `..`. -/
def relpathS (path start : String) : String :=
  let pl := (path.splitOn "/").filter (fun c => !(c == ""))
  let sl := (start.splitOn "/").filter (fun c => !(c == ""))
  let i := commonLen sl pl
  let rel := List.replicate (sl.length - i) ".." ++ pl.drop i
  if rel.isEmpty then "." else String.intercalate "/" rel

/-- Output-path computation of the `transcribe_to_srt` loop body: the
(srt_out_dir, srt_file) pair for one video, honoring `output_dir` and
`preserve_tree` with the basename fallback, or placing the srt next to the
video when no output directory is configured. -/
def srtPaths (sources : List VideoSource) (tc : TranscriptionConfig)
    (video_file : String) : String × String :=
  if truthyOpt tc.output_dir then
    let od := tc.output_dir.getD ""
    let base := if tc.preserve_tree then find_source_base sources video_file else none
    let rel := match base with
      | some b => relpathS video_file b
      | none => basenameS video_file
    let rel_no_ext := splitextStem rel
    (joinPath od (dirnameS rel_no_ext), joinPath od (rel_no_ext ++ ".srt"))
  else (dirnameS video_file, rsplitDotStem video_file ++ ".srt")

/-- Per-file body of the `transcribe_to_srt` loop, returning the srt paths
accumulated so far.  `ValueError` from `convert_mp4_to_wav` is not caught and
aborts the whole stage; `FileNotFoundError` and `CalledProcessError` from
either subprocess are logged and skip the file. -/
def transcribeGo (sources : List VideoSource) (tc : TranscriptionConfig) (w : World) :
    List String → List String → Except PyErr (List String)
  | [], acc => .ok acc.reverse
  | video_file :: rest, acc =>
      let dirs := srtPaths sources tc video_file
      let wav := convert_mp4_to_wav w video_file (some dirs.1)
      match wav.result with
      | .error (.valueError msg) => .error (.valueError msg)
      | .error _ => transcribeGo sources tc w rest acc
      | .ok audio_file =>
          if w.whisperOk audio_file then transcribeGo sources tc w rest (dirs.2 :: acc)
          else transcribeGo sources tc w rest acc

/-- Embedding of `PipelineRunner.transcribe_to_srt`. -/
def transcribe_to_srt (sources : List VideoSource) (tc : TranscriptionConfig) (w : World)
    (video_files : List String) : Except PyErr (List String) :=
  transcribeGo sources tc w video_files []

/-- Observable effects of the indexing stage, in order. -/
inductive IdxEvent
  | summarize (srt_file : String)
  | store (video_file : String)
  deriving DecidableEq

/-- Result of `build_index`: its effect trace, the final store, and the
error it raised, if any. -/
structure IndexResult where
  events : List IdxEvent
  finalStore : Store
  err : Option PyErr
  deriving DecidableEq

/-- Loop body of `build_index` over the zipped (transcript, video) pairs. -/
def buildLoop (ic : IndexingConfig) (w : World) :
    List (String × String) → Store → List IdxEvent → IndexResult
  | [], store, evs => { events := evs.reverse, finalStore := store, err := none }
  | (srt_file, video_file) :: rest, store, evs =>
      match summarize_srt_file w ic srt_file with
      | .error e =>
          { events := (IdxEvent.summarize srt_file :: evs).reverse, finalStore := store
          , err := some e }
      | .ok summary =>
          let store2 := vectorize_and_store_summary w store summary video_file
          buildLoop ic w rest store2
            (IdxEvent.store video_file :: IdxEvent.summarize srt_file :: evs)

/-- Embedding of `PipelineRunner.build_index`: raise `ValueError` on a length
mismatch before any work; otherwise summarize, vectorize and store each
(transcript, video) pair in input order. -/
def build_index (ic : IndexingConfig) (w : World) (video_files transcribed_files : List String)
    (store : Store) : IndexResult :=
  if video_files.length ≠ transcribed_files.length then
    { events := [], finalStore := store
    , err := some (.valueError "Mismatched video and transcription file counts.") }
  else buildLoop ic w (transcribed_files.zip video_files) store []

/-- Per-source log line of the scanning loop: `(index, total, path,
count_found | error)`. -/
structure ScanEvent where
  idx : Nat
  total : Nat
  spath : String
  outcome : Except String Nat
  deriving DecidableEq

/-- Scanning loop at the top of `PipelineRunner.run`: each source is scanned
with `find_video_files`; a raised error is logged with the source index and
scanning continues with the remaining sources. -/
def scanGo (w : World) (total : Nat) : Nat → List VideoSource → List ScanEvent × List String
  | _, [] => ([], [])
  | i, src :: rest =>
      let res := (w.walk src.path).map (fun files => find_video_files files src.watch_patterns)
      let next := scanGo w total (i + 1) rest
      match res with
      | .ok vfs => (⟨i, total, src.path, .ok vfs.length⟩ :: next.1, vfs ++ next.2)
      | .error e => (⟨i, total, src.path, .error e⟩ :: next.1, next.2)

/-- Scan events and the aggregated candidate list of `PipelineRunner.run`
(sources enumerated from 1). -/
def scanSources (w : World) (sources : List VideoSource) : List ScanEvent × List String :=
  scanGo w sources.length 1 sources

/-- Observable outcome of one pipeline run. -/
structure RunResult where
  scanEvents : List ScanEvent
  aggregated : List String
  filtered : List String
  stoppedNoFiles : Bool
  converted : List String
  transcribed : List String
  mismatchWarning : Option (Nat × Nat)
  indexEvents : List IdxEvent
  finalStore : Store

/-- Embedding of `PipelineRunner.run`: scan, dedup-filter, stop when nothing
is new; otherwise pause, convert, pause, transcribe, skip indexing with a
warning carrying both counts when the converted and transcribed lists have
different lengths, else pause and index.  Uncaught Python exceptions
(`SystemExit(130)` from an abort, `AttributeError` for the missing
`transcription_config` attribute, `ValueError` out of transcription or
indexing) surface as `Except.error`. -/
def runPipeline (cfg : VideoProcessingConfig) (w : World) : Except PyErr RunResult :=
  let scanned := scanSources w cfg.video_sources.sources
  let all_video_files := scanned.2.filter (fun vf => !(video_file_indexed w vf).result)
  if all_video_files.length = 0 then
    .ok { scanEvents := scanned.1, aggregated := scanned.2, filtered := all_video_files
        , stoppedNoFiles := true, converted := [], transcribed := []
        , mismatchWarning := none, indexEvents := [], finalStore := w.store }
  else
    let p1 := pause_with_abort "video conversion" 2 w.interruptBeforeConvert
    if p1.aborted then .error (.systemExit 130) else
    let conv := convert_videos cfg.conversion_config w all_video_files
    let p2 := pause_with_abort "video transcription" 2 w.interruptBeforeTranscribe
    if p2.aborted then .error (.systemExit 130) else
    match cfg.transcription_config with
    | none => .error (.attributeError "transcription_config")
    | some tc =>
        match transcribe_to_srt cfg.video_sources.sources tc w conv.outputs with
        | .error e => .error e
        | .ok transcription_files =>
            if conv.outputs.length ≠ transcription_files.length then
              .ok { scanEvents := scanned.1, aggregated := scanned.2
                  , filtered := all_video_files, stoppedNoFiles := false
                  , converted := conv.outputs, transcribed := transcription_files
                  , mismatchWarning := some (conv.outputs.length, transcription_files.length)
                  , indexEvents := [], finalStore := w.store }
            else
              let p3 := pause_with_abort "video indexing" 2 w.interruptBeforeIndex
              if p3.aborted then .error (.systemExit 130) else
              let idx := build_index cfg.indexing_config w conv.outputs transcription_files w.store
              match idx.err with
              | some e => .error e
              | none =>
                  .ok { scanEvents := scanned.1, aggregated := scanned.2
                      , filtered := all_video_files, stoppedNoFiles := false
                      , converted := conv.outputs, transcribed := transcription_files
                      , mismatchWarning := none, indexEvents := idx.events
                      , finalStore := idx.finalStore }

/-- Boolean success test on an `Except` result. -/
def isOkE : Except PyErr (List String) → Bool
  | .ok _ => true
  | .error _ => false

/-- Property of a finished run: whenever the runner observed a length
mismatch between the converted and the transcribed lists, it logged the
warning with both counts, ran no indexing effect and left the store as it
was.  (Runs that ended in an uncaught exception carry no such observation.) -/
def runSkipsIndexingOnMismatch (res : Except PyErr RunResult) (initStore : Store) : Prop :=
  match res with
  | .ok r => r.converted.length ≠ r.transcribed.length →
      r.mismatchWarning = some (r.converted.length, r.transcribed.length) ∧
      r.indexEvents = [] ∧ r.finalStore = initStore
  | .error _ => True

/-- Property of a finished run: the dedup filter dropped nothing, i.e. every
aggregated candidate survived into the filtered list. -/
def dedupKeptEverything (res : Except PyErr RunResult) : Prop :=
  match res with
  | .ok r => r.filtered = r.aggregated
  | .error _ => True

/-- Property of a finished run: its candidate list is the scan aggregate and
the dedup filter ran on exactly that aggregate, i.e. scanning handed its
result on to the following stages. -/
def runUsesScanAggregate (cfg : VideoProcessingConfig) (w : World) : Prop :=
  match runPipeline cfg w with
  | .ok r => r.aggregated = (scanSources w cfg.video_sources.sources).2 ∧
      r.filtered = r.aggregated.filter (fun vf => !(video_file_indexed w vf).result)
  | .error _ => True

/-- Empty `videos` table. -/
def emptyStore : Store := { rows := [], nextId := 1 }

/-- Concrete world in which every external call succeeds: three scan roots
(the second raises), an empty reachable store, encoder failing only on
`/v/d.avi`, and an LLM returning a padded summary. -/
def wAllOk : World :=
  { walk := fun r =>
      if r = "/s1" then .ok ["/s1/b.mp4", "/s1/a.mp4"]
      else if r = "/s2" then .error "permission denied"
      else if r = "/s3" then .ok ["/s3/c.avi", "/s3/x.txt"]
      else .ok ["/videos/one.mp4"]
  , dbUp := true
  , store := emptyStore
  , encOk := fun p => p ≠ "/v/d.avi"
  , wavOk := fun _ => true
  , whisperOk := fun _ => true
  , srtText := fun _ => "transcript"
  , llmContent := fun _ => some " a summary "
  , embedVec := fun s => [(s.length : Int)]
  , convSchedule := fun l => l.reverse
  , interruptBeforeConvert := none
  , interruptBeforeTranscribe := none
  , interruptBeforeIndex := none }

/-- World in which the store connection attempt raises. -/
def wDbDown : World := { wAllOk with dbUp := false }

/-- World in which a KeyboardInterrupt is pending at the first pause. -/
def wInterrupted : World := { wAllOk with interruptBeforeConvert := some 0 }

/-- World in which every whisper invocation fails. -/
def wWhisperFails : World := { wAllOk with whisperOk := fun _ => false }

/-- Concrete transcription settings used by witnesses. -/
def tcDefault : TranscriptionConfig :=
  { model_size := "tiny", language := "en", device := "cpu"
  , output_dir := some "/out", preserve_tree := true }

/-- Source over `/s1` watching mp4. -/
def srcS1 : VideoSource :=
  { source_type := .linux_desktop, path := "/s1", watch_patterns := ["mp4"] }

/-- Source over `/s2` (its scan raises in `wAllOk`). -/
def srcS2 : VideoSource :=
  { source_type := .linux_desktop, path := "/s2", watch_patterns := ["mp4"] }

/-- Source over `/s3` watching avi and mp4. -/
def srcS3 : VideoSource :=
  { source_type := .network_host, path := "/s3", watch_patterns := ["avi", "mp4"] }

/-- Source over `/videos` watching mp4. -/
def srcVideos : VideoSource :=
  { source_type := .linux_desktop, path := "/videos", watch_patterns := ["mp4"] }

/-- Three-source pipeline configuration with a transcription component
assigned (as the runner requires to get past transcription). -/
def cfgThreeSources : VideoProcessingConfig :=
  { video_sources := ⟨[srcS1, srcS2, srcS3]⟩
  , conversion_config := { ffmpeg := mkFFmpegConfig (.vdict []), parallel_workers := 1 }
  , indexing_config := mkIndexingConfig (.vdict [])
  , transcription_config := some tcDefault }

/-- Single-source variant of `cfgThreeSources`. -/
def cfgOneSource : VideoProcessingConfig :=
  { cfgThreeSources with video_sources := ⟨[srcVideos]⟩ }

/-- Two-worker conversion settings used to exercise the parallel regime. -/
def ccPar : ConversionConfig := { ffmpeg := mkFFmpegConfig (.vdict []), parallel_workers := 2 }

/-- The configuration dictionary the repository's own runner tests feed to
`VideoProcessingConfig` (`minimal_config` in `tests/test_pipeline_runner_run.py`),
with its `transcription` section. -/
def pipelineTestDict : CVal := .vdict
  [ ("sources", .vlist [ .vdict
      [ ("type", .vstr "linux_desktop")
      , ("path", .vstr "/videos")
      , ("watch_patterns", .vlist [.vstr "mp4", .vstr "avi"]) ] ])
  , ("conversion", .vdict [("ffmpeg", .vdict []), ("parallel_workers", .vint 1)])
  , ("indexing", .vdict
      [ ("ai_provider", .vstr "openai")
      , ("model", .vstr "gpt-4o-mini")
      , ("batch_size", .vint 1) ])
  , ("transcription", .vdict
      [ ("model_size", .vstr "tiny")
      , ("language", .vstr "en")
      , ("device", .vstr "cpu")
      , ("output_dir", .vnone)
      , ("preserve_tree", .vbool true) ]) ]

example : sortedPy ["/v/b.mp4", "/v/a.mp4"] = ["/v/a.mp4", "/v/b.mp4"] := by decide

example : splitextExt "/v/c.avi" = ".avi" := by decide
example : splitextStem "/v/c.avi" = "/v/c" := by decide
example : splitextExt "/v/.mp4" = "" := by decide
example : splitextExt "/v.x/abc" = "" := by decide
example : rsplitDotStem "/v.x/abc" = "/v" := by decide
example : rsplitDotStem "/v/c.avi" = "/v/c" := by decide
example : joinPath "/tmp/out" "v.wav" = "/tmp/out/v.wav" := by decide
example : basenameS "/tmp/v.mp4" = "v.mp4" := by decide
example : lowerS "A.MP4" = "a.mp4" := by decide
example : lstripDots "..mp4" = "mp4" := by decide
example : endswith "/v/a.mp4" ".mp4" = true := by decide
example : lastDotExt "/v/a.mp4" = some "mp4" := by decide
example : lastDotExt "/v/abc" = none := by decide

theorem char_ofNat_toNat {n : Nat} (h : Nat.isValidChar n) : (Char.ofNat n).toNat = n := by
  simp [Char.ofNat, h, Char.ofNatAux, Char.toNat, UInt32.toNat]

theorem toLower_ne_dot {c : Char} (h : ¬ c = '.') : ¬ Char.toLower c = '.' := by
  intro heq
  simp only [Char.toLower] at heq
  split at heq
  · rename_i hr
    have hv : Nat.isValidChar (c.toNat + 32) := Or.inl (by omega)
    have h2 := congrArg Char.toNat heq
    rw [char_ofNat_toNat hv] at h2
    have h3 : ('.' : Char).toNat = 46 := by decide
    omega
  · exact h heq

theorem string_mk_data (s : String) : String.mk s.data = s := rfl

theorem data_mk (l : List Char) : (String.mk l).data = l := rfl

theorem lowerS_data (s : String) : (lowerS s).data = s.data.map Char.toLower := rfl

theorem lowerS_append (s t : String) : lowerS (s ++ t) = lowerS s ++ lowerS t := by
  have h : ((s ++ t).data.map Char.toLower) = (lowerS s).data ++ (lowerS t).data := by
    simp [lowerS, String.data_append]
  calc lowerS (s ++ t) = String.mk ((s ++ t).data.map Char.toLower) := rfl
    _ = String.mk ((lowerS s).data ++ (lowerS t).data) := congrArg String.mk h
    _ = lowerS s ++ lowerS t := rfl

theorem endswith_iff {s t : String} : endswith s t = true ↔ t.data <:+ s.data :=
  List.isSuffixOf_iff_suffix

theorem splitextList_append (p : List Char) :
    (splitextList p).1 ++ (splitextList p).2 = p := by
  simp only [splitextList]
  split
  · rename_i pre heq
    split
    · have hr : p.reverse.takeWhile (fun c => !(c == '.') && !(c == '/')) ++ ('.' :: pre)
          = p.reverse := by
        rw [← heq]; exact List.takeWhile_append_dropWhile _ _
      calc pre.reverse ++ '.' ::
            (p.reverse.takeWhile (fun c => !(c == '.') && !(c == '/'))).reverse
          = ('.' :: pre).reverse ++
            (p.reverse.takeWhile (fun c => !(c == '.') && !(c == '/'))).reverse := by simp
        _ = (p.reverse.takeWhile (fun c => !(c == '.') && !(c == '/')) ++
            ('.' :: pre)).reverse := by rw [List.reverse_append]
        _ = p.reverse.reverse := by rw [hr]
        _ = p := p.reverse_reverse
    · simp
  · simp

theorem splitextList_ext_shape (p : List Char) :
    (splitextList p).2 = [] ∨
    ∃ t, (splitextList p).2 = '.' :: t ∧ ∀ c ∈ t, ¬ c = '.' := by
  simp only [splitextList]
  split
  · rename_i pre heq
    split
    · right
      refine ⟨(p.reverse.takeWhile (fun c => !(c == '.') && !(c == '/'))).reverse, rfl, ?_⟩
      intro c hc hcdot
      have hc2 : c ∈ p.reverse.takeWhile (fun c => !(c == '.') && !(c == '/')) := by
        simpa using hc
      have hpred := List.mem_takeWhile_imp hc2
      rw [hcdot] at hpred
      simp at hpred
    · left; rfl
  · left; rfl

theorem toLower_dot : Char.toLower '.' = '.' := by decide

theorem canonical_ext_endswith {p : String}
    (h : lstripDots (lowerS (splitextExt p)) = "mp4") :
    endswith (lowerS p) ".mp4" = true := by
  rcases splitextList_ext_shape p.data with hnil | ⟨t, hext, hdot⟩
  · exfalso
    have hext' : splitextExt p = "" := congrArg String.mk hnil
    rw [hext'] at h
    exact absurd h (by decide)
  · have hlowext : (lowerS (splitextExt p)).data = '.' :: t.map Char.toLower := by
      simp [lowerS_data, splitextExt, hext, toLower_dot]
    cases ht : t with
    | nil =>
        exfalso
        rw [ht] at hlowext
        have h0 := congrArg String.data h
        simp only [lstripDots, data_mk, hlowext, List.map_nil] at h0
        revert h0
        decide
    | cons c rest =>
        have hcne : ¬ Char.toLower c = '.' :=
          toLower_ne_dot (hdot c (ht ▸ List.mem_cons_self c rest))
        have hb : (Char.toLower c == '.') = false := by
          simpa using hcne
        have hmap : t.map Char.toLower = "mp4".data := by
          have hdrop := congrArg String.data h
          simp only [lstripDots, data_mk, hlowext, ht, List.map_cons,
            List.dropWhile_cons, beq_self_eq_true, if_true, hb] at hdrop
          simp only [Bool.false_eq_true, if_false] at hdrop
          rw [ht]
          simp only [List.map_cons]
          exact hdrop
        rw [endswith_iff]
        have hp : p.data = (splitextList p.data).1 ++ ('.' :: t) := by
          rw [← hext]; exact (splitextList_append p.data).symm
        obtain ⟨stem, hstem⟩ : ∃ s, (splitextList p.data).1 = s := ⟨_, rfl⟩
        rw [hstem] at hp
        have hld : (lowerS p).data = stem.map Char.toLower ++ '.' :: t.map Char.toLower := by
          rw [lowerS_data, hp]
          simp [toLower_dot]
        have hm4 : ".mp4".data = '.' :: "mp4".data := rfl
        rw [hld, hm4, ← hmap]
        exact List.suffix_append _ _

theorem endswith_append_converted (x : String) :
    endswith (lowerS (x ++ "_converted.mp4")) ".mp4" = true := by
  rw [endswith_iff, lowerS_append, String.data_append]
  have h1 : ".mp4".data <:+ (lowerS "_converted.mp4").data := by decide
  exact h1.trans (List.suffix_append _ _)

theorem runPipeline_ok_shape (cfg : VideoProcessingConfig) (w : World) (r : RunResult)
    (h : runPipeline cfg w = .ok r) :
    r.aggregated = (scanSources w cfg.video_sources.sources).2 ∧
    r.filtered = r.aggregated.filter (fun vf => !(video_file_indexed w vf).result) ∧
    (r.converted.length ≠ r.transcribed.length →
      r.mismatchWarning = some (r.converted.length, r.transcribed.length) ∧
      r.indexEvents = [] ∧ r.finalStore = w.store) := by
  simp only [runPipeline] at h
  split at h
  · injection h with h2
    subst h2
    refine ⟨rfl, rfl, ?_⟩
    intro hne
    simp at hne
  · split at h
    · exact absurd h (by simp)
    · split at h
      · exact absurd h (by simp)
      · split at h
        · exact absurd h (by simp)
        · split at h
          · exact absurd h (by simp)
          · split at h
            · injection h with h2
              subst h2
              exact ⟨rfl, rfl, fun _ => ⟨rfl, rfl, rfl⟩⟩
            · rename_i hlen
              split at h
              · exact absurd h (by simp)
              · split at h
                · exact absurd h (by simp)
                · injection h with h2
                  subst h2
                  refine ⟨rfl, rfl, ?_⟩
                  intro hne
                  exact absurd hne (by simpa using hlen)

/-- Claim C3: the spec states that the inter-stage pause blocks the calling
thread in one-second increments for the configured positive duration and that
a KeyboardInterrupt during the pause aborts the run with `SystemExit(130)`.
The code reassigns `seconds = max(0, 0)` before the zero check, so for every
stage name, every configured duration and every interrupt timing the pause
sleeps zero seconds, logs no countdown line and never aborts; in particular
at the failing input (stage "video conversion", seconds 2, interrupt pending)
it returns immediately, and a run with a pending interrupt proceeds into the
stages instead of exiting with status 130. -/
theorem pause_with_abort_never_blocks :
    (∀ (stage : String) (seconds : Int) (intr : Option Nat),
        pause_with_abort stage seconds intr =
          { slept := 0, aborted := false, countdownLogs := 0 }) ∧
    pause_with_abort "video conversion" 2 (some 0) =
      { slept := 0, aborted := false, countdownLogs := 0 } ∧
    (runPipeline cfgOneSource wInterrupted).map (fun r => r.transcribed.length) = .ok 1 := by
  refine ⟨fun stage seconds intr => rfl, rfl, rfl⟩

/-- Claim C4: the spec states that for every configuration dictionary the
constructed `VideoProcessingConfig` provides a typed `TranscriptionConfig`
component {model_size, language, device, output_dir, preserve_tree} alongside
the sources, conversion and indexing components.  Evaluating the embedded
constructor on the repository's own runner-test dictionary (which carries a
`transcription` section) shows the other three components are built but no
transcription component is, and the runner consequently raises
`AttributeError` as soon as the transcription stage reads
`config.transcription_config`. -/
theorem videoProcessingConfig_lacks_transcription :
    (mkVideoProcessingConfig pipelineTestDict).map (fun c => c.transcription_config) =
      .ok none ∧
    (mkVideoProcessingConfig pipelineTestDict).map
      (fun c => (c.video_sources.sources.map (fun s => s.path),
                 c.conversion_config.parallel_workers,
                 c.indexing_config.model)) = .ok (["/videos"], 1, "gpt-4o-mini") ∧
    (mkVideoProcessingConfig pipelineTestDict).bind
      (fun c => (runPipeline c wAllOk).map (fun _ => 0)) =
      .error (.attributeError "transcription_config") := by
  refine ⟨rfl, rfl, rfl⟩

/-- Claim C9: the audio extractor rejects every input path that does not end
case-insensitively in `.mp4` by raising its invalid-input `ValueError` with
no subprocess call; and for every canonical input with a (truthy) output
directory and a successful extraction, the returned path is the input's
basename with a `.wav` extension joined under that directory. -/
theorem convert_mp4_to_wav_contract :
    (∀ (w : World) (p : String) (od : Option String),
        endswith (lowerS p) ".mp4" = false →
        convert_mp4_to_wav w p od =
          { result := .error (.valueError "Input file must be an MP4 video file.")
          , ffmpegCalls := [] }) ∧
    (∀ (w : World) (p d : String),
        endswith (lowerS p) ".mp4" = true → ¬ d = "" → w.wavOk p = true →
        (convert_mp4_to_wav w p (some d)).result =
          .ok (joinPath d (splitextStem (basenameS p) ++ ".wav"))) := by
  constructor
  · intro w p od h
    simp [convert_mp4_to_wav, h]
  · intro w p d h hd hw
    simp [convert_mp4_to_wav, h, hd, hw]

/-- Witness for C9: `/tmp/input.avi` is rejected with the `ValueError` and no
ffmpeg call, and `/tmp/v.mp4` with output directory `/tmp/out` yields
`/tmp/out/v.wav`. -/
theorem convert_mp4_to_wav_contract_witness :
    convert_mp4_to_wav wAllOk "/tmp/input.avi" none =
      { result := .error (.valueError "Input file must be an MP4 video file.")
      , ffmpegCalls := [] } ∧
    (convert_mp4_to_wav wAllOk "/tmp/v.mp4" (some "/tmp/out")).result =
      .ok (joinPath "/tmp/out" (splitextStem (basenameS "/tmp/v.mp4") ++ ".wav")) ∧
    joinPath "/tmp/out" (splitextStem (basenameS "/tmp/v.mp4") ++ ".wav") = "/tmp/out/v.wav" := by
  refine ⟨convert_mp4_to_wav_contract.1 wAllOk "/tmp/input.avi" none (by decide),
    convert_mp4_to_wav_contract.2 wAllOk "/tmp/v.mp4" "/tmp/out" (by decide) (by decide) rfl,
    by decide⟩

/-- Claim C1: for every pair of lists of unequal lengths, `build_index`
raises the `ValueError` and performs no store write and no summarization;
and whenever a finished run observed `len(converted) != len(transcribed)`
after transcription, it skipped the indexing stage entirely, logging the
warning with both counts and leaving the store untouched. -/
theorem alignment_gate :
    (∀ (ic : IndexingConfig) (w : World) (videos transcripts : List String) (store : Store),
        videos.length ≠ transcripts.length →
        build_index ic w videos transcripts store =
          { events := [], finalStore := store
          , err := some (.valueError "Mismatched video and transcription file counts.") }) ∧
    (∀ (cfg : VideoProcessingConfig) (w : World),
        runSkipsIndexingOnMismatch (runPipeline cfg w) w.store) := by
  constructor
  · intro ic w videos transcripts store h
    simp [build_index, h]
  · intro cfg w
    unfold runSkipsIndexingOnMismatch
    rcases hrun : runPipeline cfg w with e | r
    · trivial
    · exact (runPipeline_ok_shape cfg w r hrun).2.2

/-- Witness for C1: `build_index` on one video and zero transcripts raises
the `ValueError` with no events and an unchanged store, and a concrete run
in which whisper fails on the only file ends with the (1, 0) mismatch
warning, no index events and the initial store. -/
theorem alignment_gate_witness :
    (["/v/a.mp4"] : List String).length ≠ ([] : List String).length ∧
    build_index cfgOneSource.indexing_config wAllOk ["/v/a.mp4"] [] emptyStore =
      { events := [], finalStore := emptyStore
      , err := some (.valueError "Mismatched video and transcription file counts.") } ∧
    (runPipeline cfgOneSource wWhisperFails).map
      (fun r => (r.mismatchWarning, r.indexEvents, r.finalStore)) =
      .ok (some (1, 0), [], emptyStore) := by
  refine ⟨by decide, alignment_gate.1 cfgOneSource.indexing_config wAllOk _ _ emptyStore (by decide), rfl⟩

/-- Claim C6: the aggregated candidate list of the scanning loop is the
concatenation, in configuration order, of the results of exactly those
sources whose scans succeeded; every source is logged with its 1-based
index, the total and its count or error; a failing source does not stop the
loop; and the run carries this aggregate into the following stages (showcased
by the spec's own S1=2, S2-raises, S3=1 example, which completes indexing). -/
theorem scan_failure_isolation :
    (∀ (w : World) (sources : List VideoSource),
        (scanSources w sources).2 =
          (sources.filterMap (fun s =>
            ((w.walk s.path).map (fun fs => find_video_files fs s.watch_patterns)).toOption)).flatten ∧
        (scanSources w sources).1 =
          (List.enumFrom 1 sources).map (fun q =>
            { idx := q.1, total := sources.length, spath := q.2.path
            , outcome := ((w.walk q.2.path).map
                (fun fs => find_video_files fs q.2.watch_patterns)).map List.length })) ∧
    (∀ (cfg : VideoProcessingConfig) (w : World), runUsesScanAggregate cfg w) ∧
    (scanSources wAllOk [srcS1, srcS2, srcS3]).2 =
      ["/s1/a.mp4", "/s1/b.mp4", "/s3/c.avi"] ∧
    (scanSources wAllOk [srcS1, srcS2, srcS3]).1.map (fun ev => (ev.idx, ev.outcome)) =
      [(1, .ok 2), (2, .error "permission denied"), (3, .ok 1)] ∧
    (runPipeline cfgThreeSources wAllOk).map
      (fun r => (r.aggregated.length, r.indexEvents.length)) = .ok (3, 6) := by
  have hgo : ∀ (w : World) (total : Nat) (sources : List VideoSource) (i : Nat),
      scanGo w total i sources =
        ((List.enumFrom i sources).map (fun q =>
          { idx := q.1, total := total, spath := q.2.path
          , outcome := ((w.walk q.2.path).map
              (fun fs => find_video_files fs q.2.watch_patterns)).map List.length }),
        (sources.filterMap (fun s =>
          ((w.walk s.path).map (fun fs => find_video_files fs s.watch_patterns)).toOption)).flatten) := by
    intro w total sources
    induction sources with
    | nil => intro i; rfl
    | cons s rest ih =>
        intro i
        simp only [scanGo, List.enumFrom_cons, List.map_cons, List.filterMap_cons, ih (i + 1)]
        cases hw : w.walk s.path with
        | ok fs => simp [Except.map, Except.toOption]
        | error e => simp [Except.map, Except.toOption]
  refine ⟨?_, ?_, by decide, by decide, rfl⟩
  · intro w sources
    unfold scanSources
    rw [hgo]
    exact ⟨rfl, rfl⟩
  · intro cfg w
    unfold runUsesScanAggregate
    rcases hrun : runPipeline cfg w with e | r
    · trivial
    · have hs := runPipeline_ok_shape cfg w r hrun
      exact ⟨hs.1, hs.1 ▸ hs.2.1⟩

/-- Claim C7: when the store connection attempt raises, the dedup check
returns False (treat as not indexed) and logs the warning instead of
raising; consequently a run against an unavailable store keeps every
scanned candidate in the filtered list and still attempts processing. -/
theorem dedup_fails_open :
    (∀ (w : World) (p : String), w.dbUp = false →
        video_file_indexed w p = { result := false, warned := true }) ∧
    (∀ (cfg : VideoProcessingConfig) (w : World), w.dbUp = false →
        dedupKeptEverything (runPipeline cfg w)) := by
  constructor
  · intro w p h
    simp [video_file_indexed, h]
  · intro cfg w h
    unfold dedupKeptEverything
    rcases hrun : runPipeline cfg w with e | r
    · trivial
    · have hs := runPipeline_ok_shape cfg w r hrun
      show r.filtered = r.aggregated
      rw [hs.2.1, hs.1]
      apply List.filter_eq_self.mpr
      intro a _
      simp [video_file_indexed, h]

/-- Witness for C7: with the database down, the check on a concrete path
returns False with a warning, and a concrete run keeps all scanned files
(the aggregate of the three-source world) in the filtered list. -/
theorem dedup_fails_open_witness :
    video_file_indexed wDbDown "/v/a.mp4" = { result := false, warned := true } ∧
    dedupKeptEverything (runPipeline cfgThreeSources wDbDown) ∧
    (runPipeline cfgThreeSources wDbDown).map (fun r => r.filtered) =
      .ok ["/s1/a.mp4", "/s1/b.mp4", "/s3/c.avi"] := by
  refine ⟨dedup_fails_open.1 wDbDown "/v/a.mp4" rfl,
    dedup_fails_open.2 cfgThreeSources wDbDown rfl, rfl⟩

theorem updateRecord_path (p sum : String) (e : List Int) (r : VideoRecord) :
    (updateRecord p sum e r).path = r.path := by
  unfold updateRecord
  split <;> rfl

theorem update_rows_records {rows : List VideoRecord} {p sum : String} {e : List Int}
    (hany : rows.any (fun r => r.path == p) = true)
    (hwf : rows.Pairwise fun r1 r2 => r1.path ≠ r2.path) :
    ((rows.map (updateRecord p sum e)).filter (fun r => r.path == p)).map
      (fun r => (r.summary, r.embedding)) = [(sum, e)] := by
  induction rows with
  | nil => simp at hany
  | cons r rest ih =>
      rcases List.pairwise_cons.mp hwf with ⟨hhead, htail⟩
      by_cases hp : r.path = p
      · have hrest : (rest.map (updateRecord p sum e)).filter (fun x => x.path == p) = [] := by
          rw [List.filter_eq_nil_iff]
          intro a ha
          rcases List.mem_map.mp ha with ⟨b, hb, hab⟩
          have hbp : b.path ≠ p := fun hbp => (hhead b hb) (hp.trans hbp.symm)
          rw [← hab, updateRecord_path]
          simp [hbp]
        have hup : updateRecord p sum e r = { r with summary := sum, embedding := e } := by
          simp [updateRecord, hp]
        simp only [List.map_cons, List.filter_cons, hup]
        simp [hp, hrest]
      · have hany2 : rest.any (fun x => x.path == p) = true := by
          simp only [List.any_cons] at hany
          simpa [hp] using hany
        have hup : updateRecord p sum e r = r := by
          simp [updateRecord, hp]
        simp only [List.map_cons, List.filter_cons, hup]
        simp only [show (r.path == p) = false by simp [hp]]
        simpa using ih hany2 htail

theorem upsert_recordsFor {s : Store} (hwf : s.wf) (p sum : String) (e : List Int) :
    (s.upsert p sum e).recordsFor p = [(sum, e)] := by
  unfold Store.upsert Store.recordsFor
  by_cases hany : s.rows.any (fun r => r.path == p) = true
  · rw [if_pos hany]
    exact update_rows_records hany hwf
  · rw [if_neg hany]
    have hnil : s.rows.filter (fun r => r.path == p) = [] := by
      rw [List.filter_eq_nil_iff]
      intro a ha hpa
      exact hany (List.any_eq_true.mpr ⟨a, ha, hpa⟩)
    simp [List.filter_append, hnil]

theorem upsert_wf {s : Store} (hwf : s.wf) (p sum : String) (e : List Int) :
    (s.upsert p sum e).wf := by
  unfold Store.upsert Store.wf
  by_cases hany : s.rows.any (fun r => r.path == p) = true
  · rw [if_pos hany]
    exact List.Pairwise.map _
      (fun a b hab => by rw [updateRecord_path, updateRecord_path]; exact hab) hwf
  · rw [if_neg hany]
    rw [List.pairwise_append]
    refine ⟨hwf, List.pairwise_singleton _ _, ?_⟩
    intro a ha b hb
    simp only [List.mem_singleton] at hb
    subst hb
    intro hpa
    exact hany (List.any_eq_true.mpr ⟨a, ha, by simp [hpa]⟩)

/-- Claim C2: the upsert is idempotent on path: with the store reachable and
satisfying its uniqueness invariant, storing (p, s1) and then (p, s2) leaves
exactly one record for p, holding the second summary and its embedding
(last write wins), and the uniqueness invariant is preserved (re-indexing a
path never creates a duplicate). -/
theorem upsert_idempotent_on_path (w : World) (store : Store) (p s1 s2 : String)
    (hdb : w.dbUp = true) (hwf : store.wf) :
    ((vectorize_and_store_summary w (vectorize_and_store_summary w store s1 p) s2 p).recordsFor p
      = [(s2, w.embedVec s2)]) ∧
    (vectorize_and_store_summary w (vectorize_and_store_summary w store s1 p) s2 p).wf := by
  have hv : ∀ (st : Store) (sum : String),
      vectorize_and_store_summary w st sum p = st.upsert p sum (w.embedVec sum) := by
    intro st sum
    simp [vectorize_and_store_summary, hdb]
  rw [hv, hv]
  have hwf1 : (store.upsert p s1 (w.embedVec s1)).wf := upsert_wf hwf p s1 _
  exact ⟨upsert_recordsFor hwf1 p s2 _, upsert_wf hwf1 p s2 _⟩

/-- Witness for C2: on the empty store, upserting "s1" then "s2" at
`/v/x.mp4` leaves the single row (id 1) with summary "s2" and its
embedding. -/
theorem upsert_idempotent_on_path_witness :
    Store.wf emptyStore ∧
    (vectorize_and_store_summary wAllOk
        (vectorize_and_store_summary wAllOk emptyStore "s1" "/v/x.mp4")
        "s2" "/v/x.mp4").recordsFor "/v/x.mp4" = [("s2", wAllOk.embedVec "s2")] ∧
    (vectorize_and_store_summary wAllOk
        (vectorize_and_store_summary wAllOk emptyStore "s1" "/v/x.mp4")
        "s2" "/v/x.mp4").rows =
      [{ id := 1, path := "/v/x.mp4", summary := "s2", embedding := [2] }] := by
  refine ⟨by simp [Store.wf, emptyStore],
    (upsert_idempotent_on_path wAllOk emptyStore "/v/x.mp4" "s1" "s2" rfl
      (by simp [Store.wf, emptyStore])).1,
    by decide⟩

/-- Claim C5: in both conversion regimes the stage processes exactly the
batch — sequentially in input order with one worker or at most one file,
otherwise in a completion order that is a permutation of the batch — and
per file: a canonical-extension file (extension lowercased and dot-stripped
equal to mp4) passes through unchanged with no encoder invocation addressed
to it; every other file triggers exactly one encoder invocation writing to
`<stem>_converted.mp4` (the stem being everything before the last dot),
whose success contributes that output and whose failure silently drops the
file while the rest of the batch is still processed (the output and call
lists traverse the whole order). -/
theorem conversion_per_file :
    (∀ (cc : ConversionConfig) (w : World) (files : List String),
        (convOrder cc w files).Perm files) ∧
    (∀ (cc : ConversionConfig) (w : World) (files : List String),
        (convert_videos cc w files).outputs =
          (convOrder cc w files).filterMap (fun p =>
            if lstripDots (lowerS (splitextExt p)) = "mp4" then some p
            else if w.encOk p then some (rsplitDotStem p ++ "_converted.mp4") else none)) ∧
    (∀ (cc : ConversionConfig) (w : World) (files : List String),
        (convert_videos cc w files).calls =
          ((convOrder cc w files).filter
            (fun p => !(lstripDots (lowerS (splitextExt p)) == "mp4"))).map
            (fun p => ⟨p, rsplitDotStem p ++ "_converted.mp4"⟩)) ∧
    (∀ (cc : ConversionConfig) (w : World) (files : List String),
        max 1 cc.parallel_workers = 1 ∨ files.length ≤ 1 → convOrder cc w files = files) ∧
    (∀ (cc : ConversionConfig) (w : World) (files : List String) (p : String),
        p ∈ files → lstripDots (lowerS (splitextExt p)) = "mp4" →
        p ∈ (convert_videos cc w files).outputs ∧
        ∀ c ∈ (convert_videos cc w files).calls, ¬ c.input = p) ∧
    (∀ (cc : ConversionConfig) (w : World) (files : List String) (p : String),
        p ∈ files → ¬ lstripDots (lowerS (splitextExt p)) = "mp4" → w.encOk p = true →
        (rsplitDotStem p ++ "_converted.mp4") ∈ (convert_videos cc w files).outputs) := by
  have hperm : ∀ (cc : ConversionConfig) (w : World) (files : List String),
      (convOrder cc w files).Perm files := by
    intro cc w files
    simp only [convOrder]
    split
    · exact List.Perm.refl _
    · split
      · rename_i h
        exact List.isPerm_iff.mp h
      · exact List.Perm.refl _
  have houts : ∀ (cc : ConversionConfig) (w : World) (files : List String),
      (convert_videos cc w files).outputs =
        (convOrder cc w files).filterMap (fun p =>
          if lstripDots (lowerS (splitextExt p)) = "mp4" then some p
          else if w.encOk p then some (rsplitDotStem p ++ "_converted.mp4") else none) := by
    intro cc w files
    simp only [convert_videos]
    apply List.filterMap_congr
    intro p _
    unfold process_one
    by_cases h : lstripDots (lowerS (splitextExt p)) = "mp4"
    · simp [h]
    · by_cases he : w.encOk p <;> simp [h, he]
  have hcalls : ∀ (w : World) (l : List String),
      (l.map (fun vf => (process_one w vf).2)).flatten =
        (l.filter (fun p => !(lstripDots (lowerS (splitextExt p)) == "mp4"))).map
          (fun p => ⟨p, rsplitDotStem p ++ "_converted.mp4"⟩) := by
    intro w l
    induction l with
    | nil => rfl
    | cons f rest ih =>
        simp only [List.map_cons, List.flatten_cons, List.filter_cons]
        by_cases h : lstripDots (lowerS (splitextExt f)) = "mp4"
        · have h2 : (process_one w f).2 = [] := by simp [process_one, h]
          have hb : (lstripDots (lowerS (splitextExt f)) == "mp4") = true := by simp [h]
          rw [h2]
          simp only [hb, Bool.not_true, Bool.false_eq_true, if_false]
          simpa using ih
        · have h2 : (process_one w f).2 =
              [⟨f, rsplitDotStem f ++ "_converted.mp4"⟩] := by
            by_cases he : w.encOk f <;> simp [process_one, h, he]
          have hb : (lstripDots (lowerS (splitextExt f)) == "mp4") = false := by simp [h]
          rw [h2]
          simp only [hb, Bool.not_false, if_true, List.map_cons]
          simpa using ih
  have hcallsT : ∀ (cc : ConversionConfig) (w : World) (files : List String),
      (convert_videos cc w files).calls =
        ((convOrder cc w files).filter
          (fun p => !(lstripDots (lowerS (splitextExt p)) == "mp4"))).map
          (fun p => ⟨p, rsplitDotStem p ++ "_converted.mp4"⟩) := by
    intro cc w files
    simp only [convert_videos]
    exact hcalls w _
  refine ⟨hperm, houts, hcallsT, ?_, ?_, ?_⟩
  · intro cc w files hseq
    simp only [convOrder]
    rw [if_pos hseq]
  · intro cc w files p hp hcan
    constructor
    · rw [houts cc w files]
      exact List.mem_filterMap.mpr ⟨p, ((hperm cc w files).mem_iff).mpr hp, by simp [hcan]⟩
    · intro c hc hceq
      rw [hcallsT cc w files] at hc
      rcases List.mem_map.mp hc with ⟨q, hqmem, hqc⟩
      rcases List.mem_filter.mp hqmem with ⟨_, hqnc⟩
      have hqi : q = p := by
        rw [← hceq, ← hqc]
      rw [hqi] at hqnc
      simp [hcan] at hqnc
  · intro cc w files p hp hcan he
    rw [houts cc w files]
    exact List.mem_filterMap.mpr ⟨p, ((hperm cc w files).mem_iff).mpr hp, by simp [hcan, he]⟩

/-- Witness for C5: a two-worker batch of three files is processed in the
(reversed) completion order, a permutation of the batch: the canonical
`/v/a.mp4` passes through with no encoder call addressed to it, `/v/c.avi`
converts to `/v/c_converted.mp4`, and the failing `/v/d.avi` is dropped
while the others are still processed; the same batch under one worker keeps
input order. -/
theorem conversion_per_file_witness :
    convOrder ccPar wAllOk ["/v/a.mp4", "/v/c.avi", "/v/d.avi"] =
      ["/v/d.avi", "/v/c.avi", "/v/a.mp4"] ∧
    (convert_videos ccPar wAllOk ["/v/a.mp4", "/v/c.avi", "/v/d.avi"]).outputs =
      ["/v/c_converted.mp4", "/v/a.mp4"] ∧
    (convert_videos ccPar wAllOk ["/v/a.mp4", "/v/c.avi", "/v/d.avi"]).calls =
      [⟨"/v/d.avi", "/v/d_converted.mp4"⟩, ⟨"/v/c.avi", "/v/c_converted.mp4"⟩] ∧
    "/v/a.mp4" ∈ (convert_videos ccPar wAllOk ["/v/a.mp4", "/v/c.avi", "/v/d.avi"]).outputs ∧
    (∀ c ∈ (convert_videos ccPar wAllOk ["/v/a.mp4", "/v/c.avi", "/v/d.avi"]).calls,
        ¬ c.input = "/v/a.mp4") ∧
    "/v/c_converted.mp4" ∈
      (convert_videos ccPar wAllOk ["/v/a.mp4", "/v/c.avi", "/v/d.avi"]).outputs ∧
    convOrder cfgThreeSources.conversion_config wAllOk
      ["/v/a.mp4", "/v/c.avi", "/v/d.avi"] = ["/v/a.mp4", "/v/c.avi", "/v/d.avi"] ∧
    (convert_videos cfgThreeSources.conversion_config wAllOk
      ["/v/a.mp4", "/v/c.avi", "/v/d.avi"]).outputs = ["/v/a.mp4", "/v/c_converted.mp4"] := by
  have h5 := conversion_per_file.2.2.2.2.1 ccPar wAllOk
    ["/v/a.mp4", "/v/c.avi", "/v/d.avi"] "/v/a.mp4" (by decide) (by decide)
  have h6 := conversion_per_file.2.2.2.2.2 ccPar wAllOk
    ["/v/a.mp4", "/v/c.avi", "/v/d.avi"] "/v/c.avi" (by decide) (by decide) (by decide)
  have h4 := conversion_per_file.2.2.2.1 cfgThreeSources.conversion_config wAllOk
    ["/v/a.mp4", "/v/c.avi", "/v/d.avi"] (Or.inl (by decide))
  exact ⟨by decide, by decide, by decide, h5.1, h5.2, h6, h4, by decide⟩

/-- Claim C10: every path the conversion stage returns ends
case-insensitively in `.mp4`, under either scheduling regime; hence the
audio extractor's non-canonical-input `ValueError` branch cannot fire on
conversion output, and the transcription stage applied to conversion output
never ends in that uncaught exception. -/
theorem conversion_output_canonical (cc : ConversionConfig) (w : World) (files : List String) :
    (∀ p, p ∈ (convert_videos cc w files).outputs →
        endswith (lowerS p) ".mp4" = true ∧
        ∀ (w2 : World) (od : Option String),
          (convert_mp4_to_wav w2 p od).result ≠
            .error (.valueError "Input file must be an MP4 video file.")) ∧
    (∀ (sources : List VideoSource) (tc : TranscriptionConfig),
        isOkE (transcribe_to_srt sources tc w (convert_videos cc w files).outputs) = true) := by
  have hmem : ∀ p, p ∈ (convert_videos cc w files).outputs →
      endswith (lowerS p) ".mp4" = true := by
    intro p hp
    unfold convert_videos at hp
    rcases List.mem_filterMap.mp hp with ⟨q, _, hfq⟩
    unfold process_one at hfq
    by_cases h : lstripDots (lowerS (splitextExt q)) = "mp4"
    · rw [if_pos h] at hfq
      injection hfq with hqp
      subst hqp
      exact canonical_ext_endswith h
    · rw [if_neg h] at hfq
      by_cases he : w.encOk q
      · rw [if_pos he] at hfq
        injection hfq with hqp
        subst hqp
        exact endswith_append_converted _
      · rw [if_neg he] at hfq
        exact absurd hfq (by simp)
  constructor
  · intro p hp
    refine ⟨hmem p hp, ?_⟩
    intro w2 od heq
    have hg := hmem p hp
    unfold convert_mp4_to_wav at heq
    rw [hg] at heq
    by_cases hwk : w2.wavOk p <;> simp [hwk] at heq
  · intro sources tc
    have haux : ∀ (l acc : List String),
        (∀ p ∈ l, endswith (lowerS p) ".mp4" = true) →
        isOkE (transcribeGo sources tc w l acc) = true := by
      intro l
      induction l with
      | nil => intro acc _; rfl
      | cons f rest ih =>
          intro acc h
          have hf := h f (List.mem_cons_self f rest)
          have htail := fun p hp => h p (List.mem_cons_of_mem f hp)
          simp only [transcribeGo]
          by_cases hwk : w.wavOk f
          · simp only [convert_mp4_to_wav, hf, Bool.not_true, Bool.false_eq_true,
              if_false, hwk, if_true]
            split_ifs <;> exact ih _ htail
          · simp only [convert_mp4_to_wav, hf, Bool.not_true, Bool.false_eq_true,
              if_false, hwk]
            exact ih _ htail
    exact haux _ [] hmem

/-- Witness for C10: the converted output of `["/v/c.avi"]` contains
`/v/c_converted.mp4`, which ends in `.mp4`, is not rejected by the audio
extractor, and transcribes without the uncaught `ValueError`. -/
theorem conversion_output_canonical_witness :
    "/v/c_converted.mp4" ∈
      (convert_videos cfgThreeSources.conversion_config wAllOk ["/v/c.avi"]).outputs ∧
    endswith (lowerS "/v/c_converted.mp4") ".mp4" = true ∧
    (convert_mp4_to_wav wAllOk "/v/c_converted.mp4" none).result ≠
      .error (.valueError "Input file must be an MP4 video file.") ∧
    isOkE (transcribe_to_srt [srcS1] tcDefault wAllOk
      (convert_videos cfgThreeSources.conversion_config wAllOk ["/v/c.avi"]).outputs) = true := by
  have hm : "/v/c_converted.mp4" ∈
      (convert_videos cfgThreeSources.conversion_config wAllOk ["/v/c.avi"]).outputs := by
    decide
  have h := conversion_output_canonical cfgThreeSources.conversion_config wAllOk ["/v/c.avi"]
  exact ⟨hm, (h.1 _ hm).1, (h.1 _ hm).2 wAllOk none, h.2 [srcS1] tcDefault⟩

theorem takeWhile_append_all {α : Type} {p : α → Bool} {l₁ l₂ : List α}
    (h : ∀ a ∈ l₁, p a = true) :
    (l₁ ++ l₂).takeWhile p = l₁ ++ l₂.takeWhile p := by
  induction l₁ with
  | nil => simp
  | cons a rest ih =>
      simp only [List.cons_append, List.takeWhile_cons, h a (List.mem_cons_self a rest),
        if_true]
      rw [ih (fun b hb => h b (List.mem_cons_of_mem a hb))]

theorem dropWhile_append_all {α : Type} {p : α → Bool} {l₁ l₂ : List α}
    (h : ∀ a ∈ l₁, p a = true) :
    (l₁ ++ l₂).dropWhile p = l₂.dropWhile p := by
  induction l₁ with
  | nil => simp
  | cons a rest ih =>
      simp only [List.cons_append, List.dropWhile_cons, h a (List.mem_cons_self a rest),
        if_true]
      exact ih (fun b hb => h b (List.mem_cons_of_mem a hb))

theorem endswith_dot_iff {s e : String} (hdotfree : ∀ c ∈ e.data, ¬ c = '.') :
    endswith s ("." ++ e) = true ↔ lastDotExt s = some e := by
  rw [endswith_iff]
  have hde : ("." ++ e).data = '.' :: e.data := by simp [String.data_append]
  rw [hde]
  have hall : ∀ c ∈ e.data.reverse, (!(c == '.')) = true := by
    intro c hc
    simp [hdotfree c (List.mem_reverse.mp hc)]
  constructor
  · intro hsuf
    rcases hsuf with ⟨t, ht⟩
    have hrev : s.data.reverse = e.data.reverse ++ '.' :: t.reverse := by
      rw [← ht]
      simp [List.reverse_append]
    unfold lastDotExt
    have hdw : s.data.reverse.dropWhile (fun c => !(c == '.')) = '.' :: t.reverse := by
      rw [hrev, dropWhile_append_all hall]
      simp [List.dropWhile_cons]
    have htw : s.data.reverse.takeWhile (fun c => !(c == '.')) = e.data.reverse := by
      rw [hrev, takeWhile_append_all hall]
      simp [List.takeWhile_cons]
    simp only [hdw, htw, List.reverse_reverse]
  · intro hld
    simp only [lastDotExt] at hld
    rcases hdw : s.data.reverse.dropWhile (fun c => !(c == '.')) with _ | ⟨c, rest⟩
    · rw [hdw] at hld
      simp at hld
    · rw [hdw] at hld
      simp only [Option.some.injEq] at hld
      have htw : s.data.reverse.takeWhile (fun c => !(c == '.')) = e.data.reverse := by
        have h2 := congrArg String.data hld
        simp only [data_mk] at h2
        rw [← h2]
        simp
      have hc : c = '.' := by
        have h2 := List.head?_dropWhile_not (fun c => !(c == '.')) s.data.reverse
        rw [hdw] at h2
        simpa using h2
      subst hc
      have hrev : s.data.reverse = e.data.reverse ++ '.' :: rest := by
        rw [← htw, ← hdw]
        exact (List.takeWhile_append_dropWhile _ _).symm
      refine ⟨rest.reverse, ?_⟩
      have h3 := congrArg List.reverse hrev
      simpa [List.reverse_append] using h3.symm

theorem supported_no_dot : ∀ e ∈ SUPPORTED_VIDEO_FORMATS, ∀ c ∈ e.data, ¬ c = '.' := by
  decide

/-- Claim C8: the scanner returns a lexicographically sorted list containing
exactly those walked file paths whose extension at the last dot, lowercased,
is both among the normalized (lowercased, dot-stripped) watch patterns and
in the supported format set {mpg, mp4, avi, mov, mkv}. -/
theorem find_video_files_spec (files pats : List String) :
    List.Sorted pyStrLe (find_video_files files pats) ∧
    ∀ f, f ∈ find_video_files files pats ↔
      (f ∈ files ∧ ∃ e, lastDotExt (lowerS f) = some e ∧
        e ∈ pats.map (fun q => lstripDots (lowerS q)) ∧ e ∈ SUPPORTED_VIDEO_FORMATS) := by
  constructor
  · unfold find_video_files sortedPy
    exact List.sorted_insertionSort pyStrLe _
  · intro f
    unfold find_video_files sortedPy
    rw [(List.perm_insertionSort pyStrLe _).mem_iff]
    rw [List.mem_filter]
    constructor
    · rintro ⟨hmem, hpred⟩
      refine ⟨hmem, ?_⟩
      rcases List.any_eq_true.mp hpred with ⟨fmt, hfmtmem, hends⟩
      rcases List.mem_filter.mp hfmtmem with ⟨hnorm, hsupb⟩
      have hsup : fmt ∈ SUPPORTED_VIDEO_FORMATS := by
        simpa using hsupb
      exact ⟨fmt, (endswith_dot_iff (supported_no_dot fmt hsup)).mp hends, hnorm, hsup⟩
    · rintro ⟨hmem, e, hld, hnorm, hsup⟩
      refine ⟨hmem, ?_⟩
      apply List.any_eq_true.mpr
      refine ⟨e, ?_, (endswith_dot_iff (supported_no_dot e hsup)).mpr hld⟩
      rw [List.mem_filter]
      exact ⟨hnorm, by simpa using hsup⟩

/-- Witness for C8: a concrete scan keeps exactly the avi and (upper-case)
MP4 files among the walked paths, sorted; the unsupported pattern `doc` and
the non-matching files are ignored, and membership of `/r/a.MP4` follows
from its lowercased last-dot extension `mp4`. -/
theorem find_video_files_spec_witness :
    find_video_files ["/r/b.avi", "/r/a.MP4", "/r/n.txt", "/r/noext"]
      ["MP4", ".avi", "doc"] = ["/r/a.MP4", "/r/b.avi"] ∧
    "/r/a.MP4" ∈ find_video_files ["/r/b.avi", "/r/a.MP4", "/r/n.txt", "/r/noext"]
      ["MP4", ".avi", "doc"] := by
  have h := find_video_files_spec ["/r/b.avi", "/r/a.MP4", "/r/n.txt", "/r/noext"]
    ["MP4", ".avi", "doc"]
  exact ⟨by decide, (h.2 "/r/a.MP4").mpr ⟨by decide, "mp4", by decide, by decide, by decide⟩⟩

end Rugby
